import Mathlib

/-!
# Verification of the LFG dungeon-queue simulation core

Shallow embedding of the synchronization core of `src/main.cpp` (the LFG
simulation with bonus player generation) together with the helper
`random_int`-driven branches of `src/utils.cpp`/`player_generator_thread`.

All mutations of the shared state (`g_tanks`, `g_healers`, `g_dps`,
`simulation_ended`, `bonus_mode_active`, the bonus accumulators and the
per-instance records) happen while `state_mutex` is held, so the concurrent
execution is a total order of atomic locked sections.  We embed it as a
labeled transition system: each label is one locked section (or one
generator tick), and the step relation `Step` gives its exact effect,
translated line by line from the C++.
-/

namespace LFG

/-- Enum `InstanceStatus` from `src/main.cpp`. -/
inductive InstanceStatus where
  | Empty
  | Active
deriving DecidableEq, Repr

/-- Local control location of one `instance_loop` thread:
`start` = about to enter the top-of-loop locked section,
`waiting` = inside `player_available_cv.wait`,
`running d` = executing the dungeon sleep with drawn duration `d`,
`done` = broke out of the loop (thread finished). -/
inductive WPhase where
  | start
  | waiting
  | running (d : ℕ)
  | done
deriving DecidableEq, Repr

/-- One `Instance` record of `src/main.cpp` (status/served/total_time),
paired with the control location of its owning worker thread. -/
structure Worker where
  phase : WPhase
  status : InstanceStatus
  served : ℕ
  total_time : ℕ
deriving DecidableEq, Repr

/-- Control location of `player_generator_thread`:
`dormant` = blocked in the initial wait, `active` = in the production loop,
`gdone` = returned. -/
inductive GenPhase where
  | dormant
  | active
  | gdone
deriving DecidableEq, Repr

/-- Simulation parameters fixed before any thread starts
(`g_instances`, `g_t1`, `g_t2`, `g_bonus_duration`). -/
structure Config where
  nInstances : ℕ
  t1 : ℕ
  t2 : ℕ
  bonusDuration : ℕ
deriving DecidableEq, Repr

/-- The shared state of the program: the pool counters (C++ `int`, embedded
as ℤ so that non-negativity is a theorem, not a typing artifact), the two
lifecycle flags, the bonus accumulators, the instance records with their
workers' control locations, and the generator's control location. -/
structure SimState where
  tanks : ℤ
  healers : ℤ
  dps : ℤ
  ended : Bool
  bonus : Bool
  addT : ℕ
  addH : ℕ
  addD : ℕ
  workers : List Worker
  gen : GenPhase
deriving DecidableEq, Repr

/-- Predicate `can_form_party()` from `src/main.cpp`:
`g_tanks >= 1 && g_healers >= 1 && g_dps >= 3`. -/
def can_form_party (s : SimState) : Bool :=
  decide (1 ≤ s.tanks) && decide (1 ≤ s.healers) && decide (3 ≤ s.dps)

/-- The atomic check-and-withdraw performed by a worker inside its locked
section (the guard is the `wait` predicate re-check plus the
`simulation_ended && !can_form_party()` branch of `instance_loop`; on the
success path lines 98–100 subtract 1 tank, 1 healer, 3 dps). -/
def withdrawParty (s : SimState) : Bool × SimState :=
  if can_form_party s then
    (true, { s with tanks := s.tanks - 1, healers := s.healers - 1, dps := s.dps - 3 })
  else
    (false, s)

/-- Condition `roll < generation_probability` from `player_generator_thread`:
`static_cast<double>(random_int(0, 100)) / 100.0 < 0.3`.  For each integer
`r ∈ [0,100]` the IEEE-754 double comparison agrees exactly with the rational
comparison `r / 100 < 3 / 10`: the quotient `r/100.0` is the double nearest
to the rational `r/100`, the literal `0.3` is the double nearest to `3/10`,
and rounding to nearest moves each operand by less than half an ulp — far
less than the distance `|r/100 - 3/10| ≥ 1/100` for every `r ≠ 30`, while at
`r = 30` both sides round to the very same double, making `<` false just as
over ℚ.  So the branch condition is embedded as the exact rational test. -/
def rollPasses (r : ℕ) : Bool :=
  decide ((r : ℚ) / 100 < 3 / 10)

/-- One iteration of the `while (true)` loop of `player_generator_thread`
(lines 176–236): first the duration-budget check (sets `simulation_ended`
and breaks), otherwise the probabilistic deposit with the wave draws
`bt ∈ [0,2]`, `bh ∈ [0,2]`, `bd ∈ [0,5]`, applied only when the wave is
non-empty.  `elapsed` is the measured whole-second wall time since
activation, `r` the draw of `random_int(0, 100)`. -/
def generatorTick (cfg : Config) (elapsed r bt bh bd : ℕ) (s : SimState) : SimState :=
  if 0 < cfg.bonusDuration ∧ cfg.bonusDuration ≤ elapsed then
    { s with ended := true, gen := GenPhase.gdone }
  else if rollPasses r ∧ (0 < bt ∨ 0 < bh ∨ 0 < bd) then
    { s with
        tanks := s.tanks + bt, healers := s.healers + bh, dps := s.dps + bd,
        addT := s.addT + bt, addH := s.addH + bh, addD := s.addD + bd }
  else s

/-- Effect of the first locked section of `instance_loop` (lines 72–89 up to
entering the wait): if `!can_form_party() && !bonus_mode_active`, set
`bonus_mode_active = true` (and notify, which is stateless); in every case
the thread then blocks on `player_available_cv.wait`. -/
def arriveEffect (s : SimState) : SimState :=
  if can_form_party s = false ∧ s.bonus = false then { s with bonus := true } else s

/-- Labels of the atomic sections: `arrive i` = worker `i` runs the
top-of-loop section and enters the wait; `resume i d` = worker `i` returns
from the wait (on success it draws duration `d`); `finish i` = worker `i`
runs the completion section (lines 124–138); `genWake` = the generator's
initial wait returns; `genTick elapsed r bt bh bd` = one generator loop
iteration with its measured elapsed seconds and random draws; `coord` = the
main thread's post-join section (lines 378–385). -/
inductive Label where
  | arrive (i : ℕ)
  | resume (i : ℕ) (d : ℕ)
  | finish (i : ℕ)
  | genWake
  | genTick (elapsed r bt bh bd : ℕ)
  | coord
deriving DecidableEq, Repr

/-- The transition relation: one step per atomic locked section of
`src/main.cpp`, with the scheduler's nondeterminism (which thread runs,
what the RNG draws, what the clock reads) carried by the label.

* `arrive`: worker at the loop top takes the lock, possibly flips
  `bonus_mode_active` (lines 76–85), and enters the predicate wait.
* `resume_terminate` / `resume_withdraw`: the wait returns only when its
  predicate `can_form_party() || simulation_ended` holds (line 88); the
  branch at line 91 terminates the worker (status `Empty`), otherwise lines
  98–101 withdraw atomically and mark the instance `Active`; the drawn
  duration is `random_int(g_t1, g_t2) ∈ [t1, t2]`.
* `finish`: lines 127–129 increment `served`, add the duration, and mark
  the instance `Empty`; the worker loops back to the top.
* `genWake_exit` / `genWake_activate`: the generator's initial wait
  (predicate `bonus_mode_active || simulation_ended`, lines 152–158)
  returns; with `simulation_ended` it exits immediately, otherwise it
  enters the production loop.
* `genTick`: one loop iteration, effect given by `generatorTick`; the
  draws respect the ranges of `random_int(0,100)` and the wave bounds.
* `coord`: after joining every worker the main thread sets
  `simulation_ended` only if it is still false (lines 378–385). -/
inductive Step (cfg : Config) : Label → SimState → SimState → Prop where
  | arrive (i : ℕ) (s : SimState) (w : Worker)
      (hw : s.workers[i]? = some w) (hp : w.phase = WPhase.start) :
      Step cfg (Label.arrive i) s
        { arriveEffect s with
            workers := s.workers.set i { w with phase := WPhase.waiting } }
  | resume_terminate (i : ℕ) (s : SimState) (w : Worker)
      (hw : s.workers[i]? = some w) (hp : w.phase = WPhase.waiting)
      (hend : s.ended = true) (hcan : can_form_party s = false) :
      Step cfg (Label.resume i 0) s
        { s with
            workers := s.workers.set i
              { w with phase := WPhase.done, status := InstanceStatus.Empty } }
  | resume_withdraw (i d : ℕ) (s : SimState) (w : Worker)
      (hw : s.workers[i]? = some w) (hp : w.phase = WPhase.waiting)
      (hcan : can_form_party s = true)
      (hd1 : cfg.t1 ≤ d) (hd2 : d ≤ cfg.t2) :
      Step cfg (Label.resume i d) s
        { (withdrawParty s).2 with
            workers := s.workers.set i
              { w with phase := WPhase.running d, status := InstanceStatus.Active } }
  | finish (i d : ℕ) (s : SimState) (w : Worker)
      (hw : s.workers[i]? = some w) (hp : w.phase = WPhase.running d) :
      Step cfg (Label.finish i) s
        { s with
            workers := s.workers.set i
              { phase := WPhase.start, status := InstanceStatus.Empty,
                served := w.served + 1, total_time := w.total_time + d } }
  | genWake_exit (s : SimState)
      (hg : s.gen = GenPhase.dormant) (hend : s.ended = true) :
      Step cfg Label.genWake s { s with gen := GenPhase.gdone }
  | genWake_activate (s : SimState)
      (hg : s.gen = GenPhase.dormant) (hb : s.bonus = true) (hend : s.ended = false) :
      Step cfg Label.genWake s { s with gen := GenPhase.active }
  | genTick (elapsed r bt bh bd : ℕ) (s : SimState)
      (hg : s.gen = GenPhase.active)
      (hr : r ≤ 100) (hbt : bt ≤ 2) (hbh : bh ≤ 2) (hbd : bd ≤ 5) :
      Step cfg (Label.genTick elapsed r bt bh bd) s (generatorTick cfg elapsed r bt bh bd s)
  | coord (s : SimState)
      (hall : ∀ w ∈ s.workers, w.phase = WPhase.done) :
      Step cfg Label.coord s (if s.ended then s else { s with ended := true })

/-- Some atomic section fires. -/
def StepAny (cfg : Config) (s s' : SimState) : Prop :=
  ∃ l, Step cfg l s s'

/-- State `s'` is reachable from `s` by zero or more atomic sections. -/
def Reaches (cfg : Config) : SimState → SimState → Prop :=
  Relation.ReflTransGen (StepAny cfg)

/-- The state after `main` initializes the globals and the records
(`instances.assign(g_instances, Instance{})`) and before any thread runs:
pool counters as parsed, both flags false, zero bonus accumulators, every
worker at the loop top with an `Empty` record, generator at its initial
wait. -/
def initWorker : Worker :=
  { phase := WPhase.start, status := InstanceStatus.Empty,
    served := 0, total_time := 0 }

def initState (cfg : Config) (t h d : ℤ) : SimState :=
  { tanks := t, healers := h, dps := d,
    ended := false, bonus := false,
    addT := 0, addH := 0, addD := 0,
    workers := List.replicate cfg.nInstances initWorker,
    gen := GenPhase.dormant }

/-- Reachability from the initial state with initial counts `t`, `h`, `d`. -/
def Reachable (cfg : Config) (t h d : ℤ) (s : SimState) : Prop :=
  Reaches cfg (initState cfg t h d) s

/-- Returns 1 when the worker currently holds a withdrawn party (is inside its
dungeon sleep), 0 otherwise. -/
def runBit (w : Worker) : ℕ :=
  match w.phase with
  | WPhase.running _ => 1
  | _ => 0

/-- Parties fully accounted to a worker: completed runs plus the one it is
currently holding. -/
def outWeight (w : Worker) : ℕ :=
  w.served + runBit w

/-- Total parties withdrawn from the pool so far. -/
def outCount (ws : List Worker) : ℕ :=
  (ws.map outWeight).sum

/-- Total completed parties across all instances. -/
def servedSum (ws : List Worker) : ℕ :=
  (ws.map Worker.served).sum

/-- Function `std::clamp(v, lo, hi)` (C++ semantics: `v < lo ? lo : (hi < v ? hi : v)`). -/
def cppClamp (v lo hi : ℤ) : ℤ :=
  if v < lo then lo else if hi < v then hi else v

/-- The time-clamping block of `main` (lines 322–336): returns the clamped
`(g_t1, g_t2)` together with the two note-printing conditions
`g_t1 != original_t1` and `g_t2 != original_t2`. -/
def clampTimes (t1 t2 : ℤ) : ℤ × ℤ × Bool × Bool :=
  let g2 := cppClamp t2 1 15
  let g1 := cppClamp t1 1 g2
  (g1, g2, decide (g1 ≠ t1), decide (g2 ≠ t2))

/-! ## List accounting helpers -/

lemma mem_of_get? {l : List Worker} {i : ℕ} {w : Worker}
    (h : l[i]? = some w) : w ∈ l := by
  obtain ⟨hlt, rfl⟩ := List.getElem?_eq_some.mp h
  exact List.getElem_mem hlt

lemma lt_of_get? {l : List Worker} {i : ℕ} {w : Worker}
    (h : l[i]? = some w) : i < l.length :=
  (List.getElem?_eq_some.mp h).1

lemma sum_map_set (f : Worker → ℕ) (l : List Worker) (i : ℕ) (w w' : Worker)
    (h : l[i]? = some w) :
    ((l.set i w').map f).sum + f w = (l.map f).sum + f w' := by
  induction l generalizing i with
  | nil => simp at h
  | cons a t ih =>
    cases i with
    | zero =>
      simp only [List.getElem?_cons_zero, Option.some_inj] at h
      subst h
      simp only [List.set_cons_zero, List.map_cons, List.sum_cons]
      omega
    | succ n =>
      simp only [List.getElem?_cons_succ] at h
      have := ih n h
      simp only [List.set_cons_succ, List.map_cons, List.sum_cons]
      omega

lemma outCount_set {l : List Worker} {i : ℕ} {w : Worker} (w' : Worker)
    (h : l[i]? = some w) :
    outCount (l.set i w') + outWeight w = outCount l + outWeight w' :=
  sum_map_set outWeight l i w w' h

/-! ## Non-negativity of the pool counters -/

/-- All three pool counters are non-negative. -/
def Nonneg (s : SimState) : Prop :=
  0 ≤ s.tanks ∧ 0 ≤ s.healers ∧ 0 ≤ s.dps

lemma can_form_party_iff {s : SimState} :
    can_form_party s = true ↔ 1 ≤ s.tanks ∧ 1 ≤ s.healers ∧ 3 ≤ s.dps := by
  simp [can_form_party, and_assoc]

lemma nonneg_step {cfg : Config} {l : Label} {s s' : SimState}
    (hs : Step cfg l s s') (h : Nonneg s) : Nonneg s' := by
  obtain ⟨h1, h2, h3⟩ := h
  cases hs with
  | arrive i s w hw hp =>
    unfold arriveEffect
    split <;> exact ⟨h1, h2, h3⟩
  | resume_terminate i s w hw hp hend hcan =>
    exact ⟨h1, h2, h3⟩
  | resume_withdraw i d s w hw hp hcan hd1 hd2 =>
    obtain ⟨c1, c2, c3⟩ := can_form_party_iff.mp hcan
    simp only [withdrawParty, hcan, if_true]
    refine ⟨?_, ?_, ?_⟩ <;> simp <;> omega
  | finish i d s w hw hp =>
    exact ⟨h1, h2, h3⟩
  | genWake_exit s hg hend =>
    exact ⟨h1, h2, h3⟩
  | genWake_activate s hg hb hend =>
    exact ⟨h1, h2, h3⟩
  | genTick elapsed r bt bh bd s hg hr hbt hbh hbd =>
    unfold generatorTick
    split
    · exact ⟨h1, h2, h3⟩
    · split
      · refine ⟨?_, ?_, ?_⟩ <;> simp <;> positivity
      · exact ⟨h1, h2, h3⟩
  | coord s hall =>
    split <;> exact ⟨h1, h2, h3⟩

lemma nonneg_reachable {cfg : Config} {t h d : ℤ} {s : SimState}
    (hr : Reachable cfg t h d s) (ht : 0 ≤ t) (hh : 0 ≤ h) (hd : 0 ≤ d) :
    Nonneg s := by
  induction hr with
  | refl => exact ⟨ht, hh, hd⟩
  | tail _ hstep ih =>
    obtain ⟨l, hl⟩ := hstep
    exact nonneg_step hl ih

/-! ## The main inductive invariant -/

/-- Per-worker invariant: a terminated worker's record reads `Empty`; the
accumulated busy time is bounded by `servedCount` times each end of the
duration range; a currently held duration was drawn inside the range. -/
def WInv (cfg : Config) (w : Worker) : Prop :=
  (w.phase = WPhase.done → w.status = InstanceStatus.Empty) ∧
  cfg.t1 * w.served ≤ w.total_time ∧ w.total_time ≤ cfg.t2 * w.served ∧
  ∀ d, w.phase = WPhase.running d → cfg.t1 ≤ d ∧ d ≤ cfg.t2

/-- Global inductive invariant: per-resource conservation (initial plus
generated equals pool plus parties withdrawn, weighted 1 tank / 1 healer /
3 dps per party), zero generator stats while the generator is dormant, and
`WInv` for every worker. -/
def Inv (cfg : Config) (t h d : ℤ) (s : SimState) : Prop :=
  s.tanks + (outCount s.workers : ℤ) = t + (s.addT : ℤ) ∧
  s.healers + (outCount s.workers : ℤ) = h + (s.addH : ℤ) ∧
  s.dps + 3 * (outCount s.workers : ℤ) = d + (s.addD : ℤ) ∧
  (s.gen = GenPhase.dormant → s.addT = 0 ∧ s.addH = 0 ∧ s.addD = 0) ∧
  ∀ w ∈ s.workers, WInv cfg w

lemma arriveEffect_fields (s : SimState) :
    (arriveEffect s).tanks = s.tanks ∧ (arriveEffect s).healers = s.healers ∧
    (arriveEffect s).dps = s.dps ∧ (arriveEffect s).addT = s.addT ∧
    (arriveEffect s).addH = s.addH ∧ (arriveEffect s).addD = s.addD ∧
    (arriveEffect s).gen = s.gen := by
  unfold arriveEffect
  split <;> simp

lemma inv_init (cfg : Config) (t h d : ℤ) : Inv cfg t h d (initState cfg t h d) := by
  refine ⟨?_, ?_, ?_, ?_, ?_⟩
  · simp [initState, outCount, outWeight, runBit, initWorker, List.sum_replicate]
  · simp [initState, outCount, outWeight, runBit, initWorker, List.sum_replicate]
  · simp [initState, outCount, outWeight, runBit, initWorker, List.sum_replicate]
  · intro _
    exact ⟨rfl, rfl, rfl⟩
  · intro w hw
    simp only [initState, List.mem_replicate] at hw
    rw [hw.2]
    exact ⟨by simp [initWorker], by simp [initWorker], by simp [initWorker],
      by simp [initWorker]⟩

lemma inv_step {cfg : Config} {t h d : ℤ} {l : Label} {s s' : SimState}
    (hs : Step cfg l s s') (hi : Inv cfg t h d s) : Inv cfg t h d s' := by
  obtain ⟨e1, e2, e3, egen, ew⟩ := hi
  cases hs with
  | arrive i s w hw hp =>
    have hf := arriveEffect_fields s
    have hout : outCount (s.workers.set i { w with phase := WPhase.waiting }) =
        outCount s.workers := by
      have := outCount_set { w with phase := WPhase.waiting } hw
      simp only [outWeight, runBit, hp] at this ⊢
      omega
    refine ⟨?_, ?_, ?_, ?_, ?_⟩
    · simp only [hout, hf.1, hf.2.2.2.1]; exact e1
    · simp only [hout, hf.2.1, hf.2.2.2.2.1]; exact e2
    · simp only [hout, hf.2.2.1, hf.2.2.2.2.2.1]; exact e3
    · simp only [hf.2.2.2.2.2.2, hf.2.2.2.1, hf.2.2.2.2.1, hf.2.2.2.2.2.1]
      exact egen
    · intro w' hw'
      rcases List.mem_or_eq_of_mem_set hw' with hmem | rfl
      · exact ew w' hmem
      · obtain ⟨_, b1, b2, _⟩ := ew w (mem_of_get? hw)
        exact ⟨by simp, b1, b2, by simp⟩
  | resume_terminate i s w hw hp hend hcan =>
    have hout : outCount (s.workers.set i
        { w with phase := WPhase.done, status := InstanceStatus.Empty }) =
        outCount s.workers := by
      have := outCount_set { w with phase := WPhase.done, status := InstanceStatus.Empty } hw
      simp only [outWeight, runBit, hp] at this ⊢
      omega
    refine ⟨by simp only [hout]; exact e1, by simp only [hout]; exact e2,
      by simp only [hout]; exact e3, egen, ?_⟩
    intro w' hw'
    rcases List.mem_or_eq_of_mem_set hw' with hmem | rfl
    · exact ew w' hmem
    · obtain ⟨_, b1, b2, _⟩ := ew w (mem_of_get? hw)
      exact ⟨by simp, b1, b2, by simp⟩
  | resume_withdraw i d' s w hw hp hcan hd1 hd2 =>
    have hout : outCount (s.workers.set i
        { w with phase := WPhase.running d', status := InstanceStatus.Active }) =
        outCount s.workers + 1 := by
      have := outCount_set
        { w with phase := WPhase.running d', status := InstanceStatus.Active } hw
      simp only [outWeight, runBit, hp] at this ⊢
      omega
    simp only [withdrawParty, hcan, if_true]
    refine ⟨?_, ?_, ?_, egen, ?_⟩
    · simp only [hout]; push_cast; linarith
    · simp only [hout]; push_cast; linarith
    · simp only [hout]; push_cast; linarith
    · intro w' hw'
      rcases List.mem_or_eq_of_mem_set hw' with hmem | rfl
      · exact ew w' hmem
      · obtain ⟨_, b1, b2, _⟩ := ew w (mem_of_get? hw)
        refine ⟨by simp, b1, b2, ?_⟩
        intro d'' hd''
        simp only [WPhase.running.injEq] at hd''
        subst hd''
        exact ⟨hd1, hd2⟩
  | finish i d' s w hw hp =>
    have hout : outCount (s.workers.set i
        { phase := WPhase.start, status := InstanceStatus.Empty,
          served := w.served + 1, total_time := w.total_time + d' }) =
        outCount s.workers := by
      have := outCount_set
        { phase := WPhase.start, status := InstanceStatus.Empty,
          served := w.served + 1, total_time := w.total_time + d' } hw
      simp only [outWeight, runBit, hp] at this ⊢
      omega
    refine ⟨by simp only [hout]; exact e1, by simp only [hout]; exact e2,
      by simp only [hout]; exact e3, egen, ?_⟩
    intro w' hw'
    rcases List.mem_or_eq_of_mem_set hw' with hmem | rfl
    · exact ew w' hmem
    · obtain ⟨_, b1, b2, brun⟩ := ew w (mem_of_get? hw)
      obtain ⟨bd1, bd2⟩ := brun d' hp
      refine ⟨by simp, ?_, ?_, by simp⟩
      · simp only []
        calc cfg.t1 * (w.served + 1) = cfg.t1 * w.served + cfg.t1 := by ring
        _ ≤ w.total_time + d' := Nat.add_le_add b1 bd1
      · simp only []
        calc w.total_time + d' ≤ cfg.t2 * w.served + cfg.t2 := Nat.add_le_add b2 bd2
        _ = cfg.t2 * (w.served + 1) := by ring
  | genWake_exit s hg hend =>
    exact ⟨e1, e2, e3, by simp, ew⟩
  | genWake_activate s hg hb hend =>
    exact ⟨e1, e2, e3, by simp, ew⟩
  | genTick elapsed r bt bh bd s hg hr hbt hbh hbd =>
    unfold generatorTick
    split
    · exact ⟨e1, e2, e3, by simp, ew⟩
    · split
      · refine ⟨?_, ?_, ?_, ?_, ew⟩
        · simp only []; push_cast; linarith
        · simp only []; push_cast; linarith
        · simp only []; push_cast; linarith
        · intro hdorm
          rw [hg] at hdorm
          cases hdorm
      · exact ⟨e1, e2, e3, egen, ew⟩
  | coord s hall =>
    split
    · exact ⟨e1, e2, e3, egen, ew⟩
    · exact ⟨e1, e2, e3, egen, ew⟩

lemma inv_reachable {cfg : Config} {t h d : ℤ} {s : SimState}
    (hr : Reachable cfg t h d s) : Inv cfg t h d s := by
  induction hr with
  | refl => exact inv_init cfg t h d
  | tail _ hstep ih =>
    obtain ⟨l, hl⟩ := hstep
    exact inv_step hl ih

/-! ## Further helper lemmas -/

lemma index_ne_of_phase_ne {l : List Worker} {i j : ℕ} {w w₀ : Worker}
    (hw : l[i]? = some w) (hw0 : l[j]? = some w₀) (hne : w.phase ≠ w₀.phase) :
    i ≠ j := by
  rintro rfl
  rw [hw] at hw0
  exact hne (by rw [Option.some_inj.mp hw0])

lemma outCount_eq_servedSum_of_done {ws : List Worker}
    (hall : ∀ w ∈ ws, w.phase = WPhase.done) :
    outCount ws = servedSum ws := by
  unfold outCount servedSum
  congr 1
  apply List.map_congr_left
  intro w hw
  simp [outWeight, runBit, hall w hw]

/-- Once the generator has returned with zero accumulated stats, no later
step can change that: deposits require the generator to be in its
production loop. -/
lemma gdone_zero_preserved {cfg : Config} {l : Label} {s s' : SimState}
    (hs : Step cfg l s s')
    (h : s.gen = GenPhase.gdone ∧ s.addT = 0 ∧ s.addH = 0 ∧ s.addD = 0) :
    s'.gen = GenPhase.gdone ∧ s'.addT = 0 ∧ s'.addH = 0 ∧ s'.addD = 0 := by
  obtain ⟨hg, h1, h2, h3⟩ := h
  cases hs with
  | arrive i s w hw hp =>
    have hf := arriveEffect_fields s
    exact ⟨by rw [hf.2.2.2.2.2.2]; exact hg, by rw [hf.2.2.2.1]; exact h1,
      by rw [hf.2.2.2.2.1]; exact h2, by rw [hf.2.2.2.2.2.1]; exact h3⟩
  | resume_terminate i s w hw hp hend hcan => exact ⟨hg, h1, h2, h3⟩
  | resume_withdraw i d s w hw hp hcan hd1 hd2 =>
    simp only [withdrawParty]
    split <;> exact ⟨hg, h1, h2, h3⟩
  | finish i d s w hw hp => exact ⟨hg, h1, h2, h3⟩
  | genWake_exit s hgd hend => rw [hgd] at hg; cases hg
  | genWake_activate s hgd hb hend => rw [hgd] at hg; cases hg
  | genTick elapsed r bt bh bd s hgd hr hbt hbh hbd => rw [hgd] at hg; cases hg
  | coord s hall => split <;> exact ⟨hg, h1, h2, h3⟩

/-! ## Concrete fixtures used by the witnesses -/

def cfg0 : Config := { nInstances := 1, t1 := 1, t2 := 2, bonusDuration := 0 }

def cfgZero : Config := { nInstances := 0, t1 := 1, t2 := 1, bonusDuration := 0 }

def cfgBudget : Config := { nInstances := 1, t1 := 1, t2 := 2, bonusDuration := 3 }

def sFull : SimState :=
  { tanks := 1, healers := 1, dps := 3, ended := false, bonus := false,
    addT := 0, addH := 0, addD := 0, workers := [], gen := GenPhase.dormant }

def wWaiting : Worker :=
  { phase := WPhase.waiting, status := InstanceStatus.Empty,
    served := 0, total_time := 0 }

def sOneWaiting : SimState :=
  { tanks := 0, healers := 0, dps := 0, ended := true, bonus := true,
    addT := 0, addH := 0, addD := 0, workers := [wWaiting], gen := GenPhase.dormant }

def sAllDone : SimState :=
  { tanks := 0, healers := 0, dps := 0, ended := true, bonus := false,
    addT := 0, addH := 0, addD := 0, workers := [], gen := GenPhase.dormant }

def sC6 : SimState := { initState cfgZero 0 0 0 with ended := true }

/-! ## The claims -/

/-- C1: withdrawal (party formation) succeeds if and only if, at the moment
of the locked check, tanks ≥ 1, healers ≥ 1 and dps ≥ 3; on success it
decrements tanks by exactly 1, healers by exactly 1 and dps by exactly 3 in
the same locked section, touching nothing else of the pool; on failure all
three counters are unchanged. -/
theorem C1_withdraw_iff_and_exact (s : SimState) :
    ((withdrawParty s).1 = true ↔ 1 ≤ s.tanks ∧ 1 ≤ s.healers ∧ 3 ≤ s.dps) ∧
    ((withdrawParty s).1 = true →
      (withdrawParty s).2.tanks = s.tanks - 1 ∧
      (withdrawParty s).2.healers = s.healers - 1 ∧
      (withdrawParty s).2.dps = s.dps - 3) ∧
    ((withdrawParty s).1 = false →
      (withdrawParty s).2 = s) := by
  unfold withdrawParty
  by_cases hc : can_form_party s = true
  · rw [if_pos hc]
    exact ⟨⟨fun _ => can_form_party_iff.mp hc, fun _ => rfl⟩,
      fun _ => ⟨rfl, rfl, rfl⟩, fun hff => Bool.noConfusion hff⟩
  · rw [if_neg hc]
    exact ⟨⟨fun hff => absurd hff (fun hh => Bool.noConfusion hh),
        fun h3 => absurd (can_form_party_iff.mpr h3) hc⟩,
      fun hff => absurd hff (fun hh => Bool.noConfusion hh), fun _ => rfl⟩

/-- Witness for C1 at the pool {1 tank, 1 healer, 3 dps}: the withdrawal
succeeds and empties the pool. -/
theorem C1_witness :
    (withdrawParty sFull).1 = true ∧
    (withdrawParty sFull).2.tanks = sFull.tanks - 1 ∧
    (withdrawParty sFull).2.healers = sFull.healers - 1 ∧
    (withdrawParty sFull).2.dps = sFull.dps - 3 := by
  have h := C1_withdraw_iff_and_exact sFull
  have ht : (withdrawParty sFull).1 = true :=
    h.1.mpr (by norm_num [sFull])
  exact ⟨ht, h.2.1 ht⟩

/-- C2: in every reachable state, given non-negative initial counts, the
three pool counters are non-negative. -/
theorem C2_counters_nonneg (cfg : Config) (t h d : ℤ) (s : SimState)
    (hr : Reachable cfg t h d s) (ht : 0 ≤ t) (hh : 0 ≤ h) (hd : 0 ≤ d) :
    0 ≤ s.tanks ∧ 0 ≤ s.healers ∧ 0 ≤ s.dps :=
  nonneg_reachable hr ht hh hd

/-- Witness for C2 at the initial state with counts (1, 2, 3). -/
theorem C2_witness :
    0 ≤ (initState cfg0 1 2 3).tanks ∧ 0 ≤ (initState cfg0 1 2 3).healers ∧
    0 ≤ (initState cfg0 1 2 3).dps :=
  C2_counters_nonneg cfg0 1 2 3 (initState cfg0 1 2 3)
    Relation.ReflTransGen.refl (by norm_num) (by norm_num) (by norm_num)

/-- C5: once all workers have terminated, for each resource type the
initial count plus the total added by the generator equals the remaining
pool count plus the sum over all instances of `servedCount` times that
type's party requirement (1 tank, 1 healer, 3 dps per served party). -/
theorem C5_conservation (cfg : Config) (t h d : ℤ) (s : SimState)
    (hr : Reachable cfg t h d s)
    (hall : ∀ w ∈ s.workers, w.phase = WPhase.done) :
    t + (s.addT : ℤ) = s.tanks + (servedSum s.workers : ℤ) * 1 ∧
    h + (s.addH : ℤ) = s.healers + (servedSum s.workers : ℤ) * 1 ∧
    d + (s.addD : ℤ) = s.dps + (servedSum s.workers : ℤ) * 3 := by
  obtain ⟨e1, e2, e3, -, -⟩ := inv_reachable hr
  rw [outCount_eq_servedSum_of_done hall] at e1 e2 e3
  exact ⟨by linarith, by linarith, by linarith⟩

/-- Witness for C5 at the initial state of a zero-instance configuration
(all of its workers have trivially terminated). -/
theorem C5_witness :
    (1 : ℤ) + ((initState cfgZero 1 2 3).addT : ℤ) =
      (initState cfgZero 1 2 3).tanks +
        (servedSum (initState cfgZero 1 2 3).workers : ℤ) * 1 ∧
    (2 : ℤ) + ((initState cfgZero 1 2 3).addH : ℤ) =
      (initState cfgZero 1 2 3).healers +
        (servedSum (initState cfgZero 1 2 3).workers : ℤ) * 1 ∧
    (3 : ℤ) + ((initState cfgZero 1 2 3).addD : ℤ) =
      (initState cfgZero 1 2 3).dps +
        (servedSum (initState cfgZero 1 2 3).workers : ℤ) * 3 :=
  C5_conservation cfgZero 1 2 3 (initState cfgZero 1 2 3)
    Relation.ReflTransGen.refl (by simp [initState, cfgZero])

/-- C7: with a finite duration budget configured, a generator tick whose
elapsed time has reached the budget sets `simulation_ended`, leaves the
loop, and performs no deposit on that tick: pool counters and accumulators
are untouched. -/
theorem C7_budget_expiry (cfg : Config) (elapsed r bt bh bd : ℕ) (s : SimState)
    (hb : 0 < cfg.bonusDuration) (he : cfg.bonusDuration ≤ elapsed) :
    generatorTick cfg elapsed r bt bh bd s =
      { s with ended := true, gen := GenPhase.gdone } ∧
    (generatorTick cfg elapsed r bt bh bd s).ended = true ∧
    (generatorTick cfg elapsed r bt bh bd s).gen = GenPhase.gdone ∧
    (generatorTick cfg elapsed r bt bh bd s).tanks = s.tanks ∧
    (generatorTick cfg elapsed r bt bh bd s).healers = s.healers ∧
    (generatorTick cfg elapsed r bt bh bd s).dps = s.dps ∧
    (generatorTick cfg elapsed r bt bh bd s).addT = s.addT ∧
    (generatorTick cfg elapsed r bt bh bd s).addH = s.addH ∧
    (generatorTick cfg elapsed r bt bh bd s).addD = s.addD := by
  unfold generatorTick
  rw [if_pos ⟨hb, he⟩]
  exact ⟨rfl, rfl, rfl, rfl, rfl, rfl, rfl, rfl, rfl⟩

/-- Witness for C7: budget 3 seconds, elapsed 5, on the full pool state. -/
theorem C7_witness :
    generatorTick cfgBudget 5 0 1 1 1 sFull =
      { sFull with ended := true, gen := GenPhase.gdone } :=
  (C7_budget_expiry cfgBudget 5 0 1 1 1 sFull (by norm_num [cfgBudget])
    (by norm_num [cfgBudget])).1

/-- C8: for every accepted time input (1 ≤ t1, 1 ≤ t2, t1 ≤ t2) the clamp
yields `g_t2 = min t2 15` and `g_t1 = min t1 g_t2`, hence
`1 ≤ g_t1 ≤ g_t2 ≤ 15`, and each warning note is printed exactly when the
corresponding value changed. -/
theorem C8_clamp (t1 t2 : ℤ) (h1 : 1 ≤ t1) (h2 : 1 ≤ t2) (h12 : t1 ≤ t2) :
    (clampTimes t1 t2).2.1 = min t2 15 ∧
    (clampTimes t1 t2).1 = min t1 ((clampTimes t1 t2).2.1) ∧
    1 ≤ (clampTimes t1 t2).1 ∧
    (clampTimes t1 t2).1 ≤ (clampTimes t1 t2).2.1 ∧
    (clampTimes t1 t2).2.1 ≤ 15 ∧
    ((clampTimes t1 t2).2.2.1 = true ↔ (clampTimes t1 t2).1 ≠ t1) ∧
    ((clampTimes t1 t2).2.2.2 = true ↔ (clampTimes t1 t2).2.1 ≠ t2) := by
  unfold clampTimes cppClamp
  simp only [decide_eq_true_eq]
  refine ⟨?_, ?_, ?_, ?_, ?_, ?_, ?_⟩ <;>
    first
      | trivial
      | (split_ifs <;> omega)

/-- Witness for C8 at (t1, t2) = (3, 20): t2 is clamped to 15 with a note,
t1 is kept. -/
theorem C8_witness :
    (clampTimes 3 20).2.1 = min 20 15 ∧
    (clampTimes 3 20).1 = min 3 ((clampTimes 3 20).2.1) ∧
    1 ≤ (clampTimes 3 20).1 ∧
    (clampTimes 3 20).1 ≤ (clampTimes 3 20).2.1 ∧
    (clampTimes 3 20).2.1 ≤ 15 ∧
    ((clampTimes 3 20).2.2.1 = true ↔ (clampTimes 3 20).1 ≠ 3) ∧
    ((clampTimes 3 20).2.2.2 = true ↔ (clampTimes 3 20).2.1 ≠ 20) :=
  C8_clamp 3 20 (by norm_num) (by norm_num) (by norm_num)

lemma step_bonus_mono {cfg : Config} {l : Label} {s s' : SimState}
    (hs : Step cfg l s s') (hb : s.bonus = true) : s'.bonus = true := by
  cases hs <;>
    first
      | exact hb
      | ((try simp only [arriveEffect, withdrawParty, generatorTick])
         split_ifs <;> first | rfl | exact hb)

lemma step_ended_mono {cfg : Config} {l : Label} {s s' : SimState}
    (hs : Step cfg l s s') (he : s.ended = true) : s'.ended = true := by
  cases hs <;>
    first
      | exact he
      | ((try simp only [arriveEffect, withdrawParty, generatorTick])
         split_ifs <;> first | rfl | exact he)

lemma step_bonus_flip {cfg : Config} {l : Label} {s s' : SimState}
    (hs : Step cfg l s s') (h0 : s.bonus = false) (h1 : s'.bonus = true) :
    (∃ i, l = Label.arrive i) ∧ can_form_party s = false := by
  cases hs with
  | arrive i s w hw hp =>
    refine ⟨⟨i, rfl⟩, ?_⟩
    simp only [arriveEffect] at h1
    split_ifs at h1 with hcb
    · exact hcb.1
    · simp [h0] at h1
  | resume_terminate i s w hw hp hend hcan => simp [h0] at h1
  | resume_withdraw i d s w hw hp hcan hd1 hd2 =>
    simp [withdrawParty, hcan, h0] at h1
  | finish i d s w hw hp => simp [h0] at h1
  | genWake_exit s hg hend => simp [h0] at h1
  | genWake_activate s hg hb hend => simp [h0] at h1
  | genTick elapsed r bt bh bd s hg hr hbt hbh hbd =>
    simp only [generatorTick] at h1
    split_ifs at h1 <;> simp [h0] at h1
  | coord s hall =>
    split_ifs at h1 <;> simp [h0] at h1

lemma step_coord_noop {cfg : Config} {s s' : SimState}
    (hs : Step cfg Label.coord s s') (hend : s.ended = true) : s' = s := by
  cases hs with
  | coord s hall => rw [if_pos hend]

lemma step_ended_flip {cfg : Config} {l : Label} {s s' : SimState}
    (hs : Step cfg l s s') (h0 : s.ended = false) (h1 : s'.ended = true) :
    (∃ e r bt bh bd, l = Label.genTick e r bt bh bd ∧
      0 < cfg.bonusDuration ∧ cfg.bonusDuration ≤ e) ∨
    (l = Label.coord ∧ ∀ w ∈ s.workers, w.phase = WPhase.done) := by
  cases hs with
  | arrive i s w hw hp =>
    simp only [arriveEffect] at h1
    split_ifs at h1 <;> simp [h0] at h1
  | resume_terminate i s w hw hp hend hcan => rw [h0] at hend; cases hend
  | resume_withdraw i d s w hw hp hcan hd1 hd2 =>
    simp [withdrawParty, hcan, h0] at h1
  | finish i d s w hw hp => simp [h0] at h1
  | genWake_exit s hg hend => rw [h0] at hend; cases hend
  | genWake_activate s hg hb hend => simp [h0] at h1
  | genTick elapsed r bt bh bd s hg hr hbt hbh hbd =>
    simp only [generatorTick] at h1
    split_ifs at h1 with hto hdep
    · exact Or.inl ⟨elapsed, r, bt, bh, bd, rfl, hto.1, hto.2⟩
    · simp [h0] at h1
    · simp [h0] at h1
  | coord s hall =>
    exact Or.inr ⟨rfl, hall⟩

/-- C3: both lifecycle flags are monotone (never reset, so each flips
false→true at most once); `bonus_mode_active` is set only by a worker's
arrival section when the withdrawal check fails with the flag still clear;
`simulation_ended` is set only by the generator's budget path or by the
coordinator after all workers terminated; and the coordinator's guarded set
is a no-op when the flag is already true. -/
theorem C3_flags_monotone_oneshot (cfg : Config) (l : Label) (s s' : SimState)
    (hs : Step cfg l s s') :
    (s.bonus = true → s'.bonus = true) ∧
    (s.ended = true → s'.ended = true) ∧
    (s.bonus = false → s'.bonus = true →
      (∃ i, l = Label.arrive i) ∧ can_form_party s = false) ∧
    (l = Label.coord → s.ended = true → s' = s) ∧
    (s.ended = false → s'.ended = true →
      (∃ e r bt bh bd, l = Label.genTick e r bt bh bd ∧
        0 < cfg.bonusDuration ∧ cfg.bonusDuration ≤ e) ∨
      (l = Label.coord ∧ ∀ w ∈ s.workers, w.phase = WPhase.done)) :=
  ⟨fun hb => step_bonus_mono hs hb,
   fun he => step_ended_mono hs he,
   fun h0 h1 => step_bonus_flip hs h0 h1,
   fun hco hend => step_coord_noop (hco ▸ hs) hend,
   fun h0 h1 => step_ended_flip hs h0 h1⟩

/-- Witness for C3: the coordinator's set on a state whose flag is already
true leaves the state untouched. -/
theorem C3_witness :
    (if sAllDone.ended then sAllDone else { sAllDone with ended := true }) =
      sAllDone :=
  (C3_flags_monotone_oneshot cfg0 Label.coord sAllDone
    (if sAllDone.ended then sAllDone else { sAllDone with ended := true })
    (Step.coord sAllDone (by simp [sAllDone]))).2.2.2.1 rfl rfl

/-- C4: a worker resuming from the predicate wait terminates exactly when
`simulation_ended` holds and the withdrawal check fails; a terminated
worker's record is never touched again by any step; and every withdrawal
(resume) step is taken by a worker still in its waiting phase, so a
terminated worker never withdraws again. -/
theorem C4_terminal_condition (cfg : Config) :
    (∀ (i d : ℕ) (s s' : SimState), Step cfg (Label.resume i d) s s' →
      ∀ (w' : Worker), s'.workers[i]? = some w' →
        (w'.phase = WPhase.done ↔
          s.ended = true ∧ can_form_party s = false)) ∧
    (∀ (l : Label) (s s' : SimState) (i : ℕ) (w : Worker),
      Step cfg l s s' → s.workers[i]? = some w →
      w.phase = WPhase.done → s'.workers[i]? = some w) ∧
    (∀ (i d : ℕ) (s s' : SimState) (w : Worker),
      Step cfg (Label.resume i d) s s' →
      s.workers[i]? = some w → w.phase = WPhase.waiting) := by
  refine ⟨?_, ?_, ?_⟩
  · intro i d s s' hs w' hw'
    cases hs with
    | resume_terminate i s w hw hp hend hcan =>
      have hi : i < s.workers.length := lt_of_get? hw
      simp only [List.getElem?_set_self hi, Option.some_inj] at hw'
      rw [← hw']
      simp [hend, hcan]
    | resume_withdraw i d s w hw hp hcan hd1 hd2 =>
      have hi : i < s.workers.length := lt_of_get? hw
      simp only [List.getElem?_set_self hi, Option.some_inj] at hw'
      rw [← hw']
      simp [hcan]
  · intro l s s' i w hs hw hdone
    cases hs with
    | arrive j s w₀ hw0 hp0 =>
      have hne : i ≠ j :=
        index_ne_of_phase_ne hw hw0 (by rw [hdone, hp0]; exact fun hh => WPhase.noConfusion hh)
      simp only [List.getElem?_set_ne (Ne.symm hne)]
      exact hw
    | resume_terminate j s w₀ hw0 hp0 hend hcan =>
      have hne : i ≠ j :=
        index_ne_of_phase_ne hw hw0 (by rw [hdone, hp0]; exact fun hh => WPhase.noConfusion hh)
      simp only [List.getElem?_set_ne (Ne.symm hne)]
      exact hw
    | resume_withdraw j d s w₀ hw0 hp0 hcan hd1 hd2 =>
      have hne : i ≠ j :=
        index_ne_of_phase_ne hw hw0 (by rw [hdone, hp0]; exact fun hh => WPhase.noConfusion hh)
      simp only [List.getElem?_set_ne (Ne.symm hne)]
      exact hw
    | finish j d s w₀ hw0 hp0 =>
      have hne : i ≠ j :=
        index_ne_of_phase_ne hw hw0 (by rw [hdone, hp0]; exact fun hh => WPhase.noConfusion hh)
      simp only [List.getElem?_set_ne (Ne.symm hne)]
      exact hw
    | genWake_exit s hg hend => exact hw
    | genWake_activate s hg hb hend => exact hw
    | genTick elapsed r bt bh bd s hg hr hbt hbh hbd =>
      unfold generatorTick
      split_ifs <;> exact hw
    | coord s hall =>
      split_ifs <;> exact hw
  · intro i d s s' w hs hw
    cases hs with
    | resume_terminate i s w₀ hw0 hp0 hend hcan =>
      rw [hw] at hw0
      rw [Option.some_inj.mp hw0]
      exact hp0
    | resume_withdraw i d s w₀ hw0 hp0 hcan hd1 hd2 =>
      rw [hw] at hw0
      rw [Option.some_inj.mp hw0]
      exact hp0

def wDone : Worker :=
  { wWaiting with phase := WPhase.done, status := InstanceStatus.Empty }

/-- Witness for C4: a single waiting worker, ended flag set, empty pool —
its resume step terminates it, and the terminal condition holds. -/
theorem C4_witness :
    wDone.phase = WPhase.done ↔
      sOneWaiting.ended = true ∧ can_form_party sOneWaiting = false :=
  (C4_terminal_condition cfg0).1 0 0 sOneWaiting
    { sOneWaiting with workers := sOneWaiting.workers.set 0 wDone }
    (Step.resume_terminate 0 sOneWaiting wWaiting rfl rfl rfl (by decide))
    wDone rfl

/-- C6: if the generator's dormant-phase wait completes with
`simulation_ended` already true, it returns immediately without depositing:
the pool is untouched by the wake, the accumulators are zero at that point,
and they stay zero in every later reachable state (the generator never
enters its production loop again). -/
theorem C6_dormant_exit_no_production (cfg : Config) (t h d : ℤ) (s s' : SimState)
    (hr : Reachable cfg t h d s) (hg : s.gen = GenPhase.dormant)
    (hend : s.ended = true) (hstep : Step cfg Label.genWake s s') :
    s'.gen = GenPhase.gdone ∧
    s'.addT = 0 ∧ s'.addH = 0 ∧ s'.addD = 0 ∧
    s'.tanks = s.tanks ∧ s'.healers = s.healers ∧ s'.dps = s.dps ∧
    (∀ s'', Reaches cfg s' s'' →
      s''.addT = 0 ∧ s''.addH = 0 ∧ s''.addD = 0) := by
  obtain ⟨-, -, -, egen, -⟩ := inv_reachable hr
  obtain ⟨z1, z2, z3⟩ := egen hg
  cases hstep with
  | genWake_exit s hg' hend' =>
    have aux : ∀ s'', Reaches cfg { s with gen := GenPhase.gdone } s'' →
        s''.gen = GenPhase.gdone ∧ s''.addT = 0 ∧ s''.addH = 0 ∧ s''.addD = 0 := by
      intro s'' hs''
      induction hs'' with
      | refl => exact ⟨rfl, z1, z2, z3⟩
      | tail _ hstep ih =>
        obtain ⟨l, hl⟩ := hstep
        exact gdone_zero_preserved hl ih
    exact ⟨rfl, z1, z2, z3, rfl, rfl, rfl, fun s'' h'' => (aux s'' h'').2⟩
  | genWake_activate s hg' hb hend' =>
    rw [hend] at hend'
    cases hend'

/-- Witness for C6: zero instances, coordinator ends the simulation, then
the generator wakes with the flag set and its stats stay zero. -/
theorem C6_witness :
    ({ sC6 with gen := GenPhase.gdone }).addT = 0 ∧
    ({ sC6 with gen := GenPhase.gdone }).addH = 0 ∧
    ({ sC6 with gen := GenPhase.gdone }).addD = 0 := by
  have hreach : Reachable cfgZero 0 0 0 sC6 :=
    Relation.ReflTransGen.single
      ⟨Label.coord, @Step.coord cfgZero (initState cfgZero 0 0 0)
        (by simp [initState, cfgZero])⟩
  have h := C6_dormant_exit_no_production cfgZero 0 0 0 sC6
    { sC6 with gen := GenPhase.gdone } hreach rfl rfl
    (Step.genWake_exit sC6 rfl rfl)
  exact ⟨h.2.1, h.2.2.1, h.2.2.2.1⟩

/-- C9: a terminated worker's record reads `Empty`; once every worker has
terminated, every record in the final view reads `Empty`; at every
reachable instant each record's total busy time lies between
`served * t1` and `served * t2`; and both the completion section and the
termination branch themselves set the record to `Empty`. -/
theorem C9_records_empty_and_bounded (cfg : Config) (t h d : ℤ) :
    (∀ s, Reachable cfg t h d s →
      ∀ w ∈ s.workers,
        (w.phase = WPhase.done → w.status = InstanceStatus.Empty) ∧
        cfg.t1 * w.served ≤ w.total_time ∧ w.total_time ≤ cfg.t2 * w.served) ∧
    (∀ s, Reachable cfg t h d s → (∀ w ∈ s.workers, w.phase = WPhase.done) →
      ∀ w ∈ s.workers, w.status = InstanceStatus.Empty) ∧
    (∀ (i : ℕ) (s s' : SimState), Step cfg (Label.finish i) s s' →
      ∀ (w' : Worker), s'.workers[i]? = some w' →
        w'.status = InstanceStatus.Empty) ∧
    (∀ (i d' : ℕ) (s s' : SimState), Step cfg (Label.resume i d') s s' →
      ∀ (w' : Worker), s'.workers[i]? = some w' → w'.phase = WPhase.done →
        w'.status = InstanceStatus.Empty) := by
  have part1 : ∀ s, Reachable cfg t h d s →
      ∀ w ∈ s.workers,
        (w.phase = WPhase.done → w.status = InstanceStatus.Empty) ∧
        cfg.t1 * w.served ≤ w.total_time ∧ w.total_time ≤ cfg.t2 * w.served := by
    intro s hr w hw
    obtain ⟨-, -, -, -, ew⟩ := inv_reachable hr
    obtain ⟨a, b1, b2, -⟩ := ew w hw
    exact ⟨a, b1, b2⟩
  refine ⟨part1, ?_, ?_, ?_⟩
  · intro s hr hall w hw
    exact (part1 s hr w hw).1 (hall w hw)
  · intro i s s' hs w' hw'
    cases hs with
    | finish i d' s w hw hp =>
      have hi : i < s.workers.length := lt_of_get? hw
      simp only [List.getElem?_set_self hi, Option.some_inj] at hw'
      rw [← hw']
  · intro i d' s s' hs w' hw' hdone
    cases hs with
    | resume_terminate i s w hw hp hend hcan =>
      have hi : i < s.workers.length := lt_of_get? hw
      simp only [List.getElem?_set_self hi, Option.some_inj] at hw'
      rw [← hw']
    | resume_withdraw i d s w hw hp hcan hd1 hd2 =>
      have hi : i < s.workers.length := lt_of_get? hw
      simp only [List.getElem?_set_self hi, Option.some_inj] at hw'
      rw [← hw'] at hdone
      cases hdone

/-- Witness for C9 at the one-instance initial state: its record satisfies
the terminal-status implication and the busy-time bounds. -/
theorem C9_witness :
    (initWorker.phase = WPhase.done → initWorker.status = InstanceStatus.Empty) ∧
    cfg0.t1 * initWorker.served ≤ initWorker.total_time ∧
    initWorker.total_time ≤ cfg0.t2 * initWorker.served :=
  (C9_records_empty_and_bounded cfg0 1 1 3).1 (initState cfg0 1 1 3)
    Relation.ReflTransGen.refl initWorker (by simp [initState, cfg0])

/-- C10 counterexample: the claim says the deposit branch is taken exactly
when the draw satisfies `r ≤ 30`, but at the draw `r = 30` the code's
comparison `30/100.0 < 0.3` is false (both sides are the same value), so
the branch is not taken: a tick with roll 30 and a non-empty wave deposits
nothing. -/
theorem C10_counterexample :
    rollPasses 30 = false ∧
    generatorTick cfg0 0 30 1 0 0 sFull = sFull := by
  have hroll : rollPasses 30 = false := by
    simp only [rollPasses, decide_eq_false_iff_not]
    push_cast
    norm_num
  refine ⟨hroll, ?_⟩
  unfold generatorTick
  rw [if_neg (by simp [cfg0]), if_neg (by simp [hroll])]

/-- C10 amended: on each active-phase tick the deposit branch is taken
exactly when the draw of `random_int(0, 100)` satisfies `r < 30` (that is,
`r ≤ 29`), so over the 101 equally likely outcomes the per-tick generation
probability is 30/101 (about 0.297), not the nominal 0.3. -/
theorem C10_roll_threshold :
    (∀ r : ℕ, rollPasses r = true ↔ r < 30) ∧
    (List.range 101).countP (fun r => rollPasses r) = 30 ∧
    (∀ (cfg : Config) (e r bt bh bd : ℕ) (s : SimState),
      cfg.bonusDuration = 0 → 0 < bt →
      ((generatorTick cfg e r bt bh bd s).addT = s.addT + bt ↔ r < 30)) := by
  have key : ∀ r : ℕ, rollPasses r = true ↔ r < 30 := by
    intro r
    simp only [rollPasses, decide_eq_true_eq]
    rw [div_lt_iff₀ (by norm_num : (0:ℚ) < 100)]
    have h100 : (3 : ℚ) / 10 * 100 = 30 := by norm_num
    rw [h100]
    norm_cast
  have hcount : (List.range 101).countP (fun r => rollPasses r) = 30 := by
    have hpt : ∀ a ∈ List.range 101,
        ((fun r => rollPasses r) a = true) ↔ ((fun r => decide (r < 30)) a = true) := by
      intro a _
      simp only []
      rw [key a, decide_eq_true_eq]
    rw [List.countP_congr hpt]
    decide
  refine ⟨key, hcount, ?_⟩
  intro cfg e r bt bh bd s hb hbt
  unfold generatorTick
  rw [if_neg (by simp [hb])]
  by_cases hroll : rollPasses r = true
  · rw [if_pos ⟨hroll, Or.inl hbt⟩]
    exact iff_of_true rfl ((key r).mp hroll)
  · rw [if_neg (fun hand => hroll hand.1)]
    exact iff_of_false (by omega) (fun hlt => hroll ((key r).mpr hlt))

/-- Witness for C10 at roll 29 with a one-tank wave: the deposit happens. -/
theorem C10_witness :
    (generatorTick cfg0 0 29 1 0 0 sFull).addT = sFull.addT + 1 ↔ 29 < 30 :=
  C10_roll_threshold.2.2 cfg0 0 29 1 0 0 sFull rfl (by norm_num)

end LFG
